import Mathlib

/-!
Verification development for the img-prefix episode-stamping tool.

The TypeScript source (`src/App.tsx`, `src/types.ts`, `src/components/*`) is
shallowly embedded below.  Pure string/number routines are translated
directly from `App.tsx`; the stateful batch run is modelled as an explicit
state-transition function whose environment inputs (decode success, canvas
context availability) are data.  JavaScript numbers appearing here are only
ever integers in the source paths modelled, so they are embedded as
`Nat`/`Int` (digit runs parsed by `Number` are modelled exactly; JS doubles
are exact on these below 2^53).

The multi-resolution engine described by the specification (OutputSpecs,
RenderCells, letterbox composition, per-spec naming) is not present under
`src/`: only its data declarations (`types.ts`, whose `PreviewItem` carries
`sequenceNumber`/`width`/`height`/`sizeLabel`) and its UI callers
(`SettingsPanel.tsx` with landscape/portrait file-name prefixes and tags,
`PreviewPanel.tsx` with the 1920x1080 and 500x750 sections) are.  Those
missing parts are modelled from the spec; each such definition carries a
doc comment starting `Modelled from the spec:`.
-/

/-! ### Decimal rendering (JS `String(n)`) -/

/-- Decimal digit character for a value below ten (used to model JS number
rendering; the catch-all arm is never reached on the inputs used). -/
def digitChar : Nat → Char
  | 0 => '0'
  | 1 => '1'
  | 2 => '2'
  | 3 => '3'
  | 4 => '4'
  | 5 => '5'
  | 6 => '6'
  | 7 => '7'
  | 8 => '8'
  | _ => '9'

/-- Fuel-driven decimal digit list of a natural number (most significant
first).  Structural recursion on the fuel keeps the function kernel
reducible; `fuel = n + 1` is always sufficient because `n < 10 ^ (n + 1)`. -/
def natReprAux : Nat → Nat → List Char
  | 0, _ => []
  | fuel + 1, n =>
    if n < 10 then [digitChar n]
    else natReprAux fuel (n / 10) ++ [digitChar (n % 10)]

/-- JS `String(n)` for a natural number. -/
def natRepr (n : Nat) : String := String.mk (natReprAux (n + 1) n)

/-- JS `String(n)` for an integer: a leading minus sign for negatives,
plain decimal otherwise. -/
def intRepr (i : Int) : String :=
  if i < 0 then "-" ++ natRepr i.natAbs else natRepr i.toNat

/-- `padNumber` from `App.tsx`: `String(n)`, left-padded with `'0'` up to
`digits` characters unless already at least that long. -/
def padNumber (n : Int) (digits : Nat) : String :=
  let s := intRepr n
  if digits ≤ s.length then s
  else String.mk (List.replicate (digits - s.length) '0' ++ s.data)

/-- The label built at `App.tsx:233-234`: `num = startNumber + i`,
`label = prefix + padNumber(num, digits)` (`p` is the configured label
prefix string). -/
def labelFmt (p : String) (startNumber position : Int) (digits : Nat) : String :=
  p ++ padNumber (startNumber + position) digits

/-! ### Natural-order comparison (`naturalCompare`, `App.tsx:39-65`)

The regex `/(\d+)|(\D+)/g` splits a string into maximal runs of digits and
non-digits; a digit run is pushed as `[Number(run), ""]`, a non-digit run as
`[Infinity, run]`.  `Infinity` is modelled by `none` in an `Option Nat`
numeric component.  The JS comparison value `aNum - bNum` is modelled
sign-faithfully (`Infinity - finite` becomes `1`, `finite - Infinity`
becomes `-1`); only the sign is ever consumed (by `Array.prototype.sort`).
`String.prototype.localeCompare(_, "ja")` is an external collation: it is
modelled by an abstract comparator parameter `lc`. -/

/-- JS `\d`: exactly the ASCII digits `0-9` (stated on code points). -/
def isDigitChar (c : Char) : Bool := decide (48 ≤ c.toNat ∧ c.toNat ≤ 57)

/-- Value of a decimal digit run, as computed by JS `Number` on a `\d+`
match (exact for runs below 2^53, which JS doubles represent exactly). -/
def digitsVal (l : List Char) : Nat :=
  l.foldl (fun a c => 10 * a + (c.toNat - 48)) 0

/-- Maximal-run splitter underlying the regex `/(\d+)|(\D+)/g`: returns the
runs left to right, each tagged with `true` for a digit run.  Built by a
right fold that merges a character into the following run when the class
matches. -/
def tokenizeRuns : List Char → List (Bool × List Char)
  | [] => []
  | c :: cs =>
    match tokenizeRuns cs with
    | (b, r) :: t =>
      if b = isDigitChar c then (b, c :: r) :: t
      else (isDigitChar c, [c]) :: (b, r) :: t
    | [] => [(isDigitChar c, [c])]

/-- One pushed pair of `naturalCompare`: numeric component (`none` models
`Infinity`) and string component. -/
abbrev NatTok := Option Nat × String

/-- The token list `ax`/`bx` built by `naturalCompare` for one string. -/
def toks (s : String) : List NatTok :=
  (tokenizeRuns s.data).map fun br =>
    if br.1 then (some (digitsVal br.2), "") else (none, String.mk br.2)

/-- Sign-faithful model of the JS subtraction `aNum - bNum` on the numeric
token components (`none` stands for `Infinity`). -/
def numDiff : Option Nat → Option Nat → Int
  | some a, some b => (a : Int) - b
  | some _, none => -1
  | none, some _ => 1
  | none, none => 0

/-- The `while` loop of `naturalCompare`: pairs are compared numeric
component first (returning their difference when unequal), then by
`localeCompare` when the string components differ; when one side runs out,
the length difference is returned. -/
def compareToks (lc : String → String → Int) : List NatTok → List NatTok → Int
  | [], bs => -(bs.length : Int)
  | _ :: as_, [] => (as_.length : Int) + 1
  | a :: as_, b :: bs =>
    if a.1 ≠ b.1 then numDiff a.1 b.1
    else if a.2 ≠ b.2 then lc a.2 b.2
    else compareToks lc as_ bs

/-- `naturalCompare` from `App.tsx:39-65`, parameterized by the
`localeCompare(_, "ja")` collation `lc`. -/
def naturalCompare (lc : String → String → Int) (a b : String) : Int :=
  compareToks lc (toks a) (toks b)

/-- Stable insertion sort by a boolean `le`; models
`Array.prototype.sort(cmp)` for a comparator inducing a total preorder
(the engine's sort is stable and places `x` before `y` whenever
`cmp(x,y) < 0`). -/
def insertByLe {α : Type} (le : α → α → Bool) (x : α) : List α → List α
  | [] => [x]
  | y :: ys => if le x y then x :: y :: ys else y :: insertByLe le x ys

/-- See `insertByLe`. -/
def sortByLe {α : Type} (le : α → α → Bool) : List α → List α
  | [] => []
  | x :: xs => insertByLe le x (sortByLe le xs)

/-- `[...files].sort((a, b) => naturalCompare(a, b))` at the level of the
name strings (`sortedFiles`, `App.tsx:150-154`). -/
def sortedNames (lc : String → String → Int) (names : List String) : List String :=
  sortByLe (fun a b => decide (naturalCompare lc a b ≤ 0)) names

/-! ### `hexToRgba` (`App.tsx:107-114`)

`hex.replace("#", "")` removes the first `"#"` only; `.trim()` strips JS
whitespace from both ends; `parseInt(_, 16)` is modelled faithfully on the
two-character slices (leading whitespace, an optional sign, an optional
`0x`/`0X` prefix, then maximal hex digits; no digits gives `NaN`, modelled
by `none` and rendered `"NaN"`).  The `alpha` argument is only ever
interpolated into the result string, so it is embedded as its rendered
string. -/

/-- JS whitespace (the `String.prototype.trim` set), by code point. -/
def isJsSpace (c : Char) : Bool :=
  decide (c.toNat = 9 ∨ c.toNat = 10 ∨ c.toNat = 11 ∨ c.toNat = 12 ∨
    c.toNat = 13 ∨ c.toNat = 32 ∨ c.toNat = 160 ∨ c.toNat = 5760 ∨
    (8192 ≤ c.toNat ∧ c.toNat ≤ 8202) ∨ c.toNat = 8232 ∨ c.toNat = 8233 ∨
    c.toNat = 8239 ∨ c.toNat = 8287 ∨ c.toNat = 12288 ∨ c.toNat = 65279)

/-- `String.prototype.trim`. -/
def trimChars (l : List Char) : List Char :=
  ((l.dropWhile isJsSpace).reverse.dropWhile isJsSpace).reverse

/-- `s.replace(c, "")` for a single-character pattern: drops the first
occurrence only. -/
def removeFirst (c : Char) : List Char → List Char
  | [] => []
  | x :: xs => if x = c then xs else x :: removeFirst c xs

/-- Hexadecimal digit, by code point (`parseInt(_, 16)` accepts both
cases). -/
def isHexDigitChar (c : Char) : Bool :=
  decide ((48 ≤ c.toNat ∧ c.toNat ≤ 57) ∨ (65 ≤ c.toNat ∧ c.toNat ≤ 70) ∨
    (97 ≤ c.toNat ∧ c.toNat ≤ 102))

/-- Value of a hexadecimal digit character. -/
def hexDigitVal (c : Char) : Nat :=
  if 48 ≤ c.toNat ∧ c.toNat ≤ 57 then c.toNat - 48
  else if 65 ≤ c.toNat ∧ c.toNat ≤ 70 then c.toNat - 55
  else c.toNat - 87

/-- Value of a hexadecimal digit run. -/
def hexVal (l : List Char) : Nat := l.foldl (fun a c => 16 * a + hexDigitVal c) 0

/-- `parseInt(s, 16)`: skip leading whitespace, read an optional sign, drop
an optional `0x`/`0X` prefix, then take the maximal run of hex digits;
`none` models `NaN` (no digits). -/
def parseIntHex (l : List Char) : Option Int :=
  let l1 := l.dropWhile isJsSpace
  let neg : Bool := l1.head? = some '-'
  let l2 := if l1.head? = some '-' ∨ l1.head? = some '+' then l1.tail else l1
  let l3 := if l2.take 2 = ['0', 'x'] ∨ l2.take 2 = ['0', 'X'] then l2.drop 2 else l2
  let ds := l3.takeWhile isHexDigitChar
  if ds = [] then none
  else some (if neg then -(hexVal ds : Int) else (hexVal ds : Int))

/-- Template interpolation of a JS number that is either an integer or
`NaN`. -/
def renderNum : Option Int → String
  | none => "NaN"
  | some i => intRepr i

/-- `hexToRgba` from `App.tsx:107-114`. -/
def hexToRgba (hex : String) (alpha : String) : String :=
  let h := trimChars (removeFirst '#' hex.data)
  if h.length ≠ 6 then "rgba(0,0,0," ++ alpha ++ ")"
  else
    "rgba(" ++ renderNum (parseIntHex (h.take 2)) ++ "," ++
      renderNum (parseIntHex ((h.drop 2).take 2)) ++ "," ++
      renderNum (parseIntHex ((h.drop 4).take 2)) ++ "," ++ alpha ++ ")"

/-- Lowercase hexadecimal digit character for a value below sixteen (a
construction helper for stating the round-trip property of `hexToRgba`;
not part of the source). -/
def hexDigitChar : Nat → Char
  | 0 => '0'
  | 1 => '1'
  | 2 => '2'
  | 3 => '3'
  | 4 => '4'
  | 5 => '5'
  | 6 => '6'
  | 7 => '7'
  | 8 => '8'
  | 9 => '9'
  | 10 => 'a'
  | 11 => 'b'
  | 12 => 'c'
  | 13 => 'd'
  | 14 => 'e'
  | _ => 'f'

/-- Two-digit hexadecimal rendering of a byte (construction helper). -/
def toHex2 (n : Nat) : List Char := [hexDigitChar (n / 16), hexDigitChar (n % 16)]

/-! ### File-name base (`p.name.replace(/\.[^.]+$/, "")`, `App.tsx:324`) -/

/-- Strips a final `.ext` segment when the name has a dot followed by at
least one trailing non-dot character (the regex `\.[^.]+$`); otherwise the
name is returned unchanged. -/
def stripExtension (s : String) : String :=
  let r := s.data.reverse
  let extPart := r.takeWhile (fun c => c ≠ '.')
  let rest := r.dropWhile (fun c => c ≠ '.')
  if extPart = [] ∨ rest = [] then s else String.mk rest.tail.reverse

/-! ### The `App.tsx` batch run as a state machine

`renderAll` (`App.tsx:180-289`) and `downloadZip` (`App.tsx:318-334`) are
embedded as pure transition functions.  Environment effects are explicit
data on each file: whether `fileToImage` decodes (and to what pixel size)
and whether `canvas.getContext("2d")` is available.  Pixel-level drawing
(background box, shadow, text fill) only affects the encoded bitmap, which
no claim observes, so a preview records the observable fields: id, name,
label, whether a stamped blob exists, and the error message. -/

/-- Decoded raster dimensions (`img.naturalWidth`/`img.naturalHeight`). -/
structure Raster where
  w : Nat
  h : Nat
deriving DecidableEq

/-- One picked file together with its environment behavior: `decode` is
`none` when `fileToImage` rejects, and `ctxOk` is false when
`canvas.getContext("2d")` returns `null`. -/
structure FileEntry where
  name : String
  decode : Option Raster
  ctxOk : Bool
deriving DecidableEq

/-- Observable fields of a `PreviewItem` (`App.tsx:27-35`): `hasBlob`
stands for `stampedBlob !== null`. -/
structure PreviewItem where
  id : String
  name : String
  label : String
  hasBlob : Bool
  error : Option String
deriving DecidableEq

/-- `ProgressState` (`App.tsx:37`). -/
structure ProgressState where
  done : Nat
  total : Nat
deriving DecidableEq

/-- `OutputFormat` (`App.tsx:25`). -/
inductive OutputFormat
  | png
  | jpeg
deriving DecidableEq

/-- The React state touched by `renderAll`/`downloadZip`. -/
structure AppState where
  files : List FileEntry
  previews : List PreviewItem
  isRendering : Bool
  progress : ProgressState
deriving DecidableEq

/-- The stamp settings consumed by the modelled observable outputs
(`prefixText` is the label prefix field). -/
structure StampConfig where
  prefixText : String
  startNumber : Int
  digits : Nat
  outputFormat : OutputFormat
deriving DecidableEq

/-- One iteration of the `renderAll` loop body for the file at post-sort
position `i`: decode failure and context failure each produce an
error-populated preview; otherwise the preview is stamped with
`prefix + padNumber(startNumber + i, digits)`. -/
def renderItem (cfg : StampConfig) (i : Nat) (f : FileEntry) : PreviewItem :=
  match f.decode with
  | none =>
    { id := f.name ++ "-" ++ natRepr i, name := f.name, label := "",
      hasBlob := false, error := some "画像の読み込みに失敗しました" }
  | some _ =>
    if f.ctxOk = false then
      { id := f.name ++ "-" ++ natRepr i, name := f.name, label := "",
        hasBlob := false, error := some "Canvasの初期化に失敗しました" }
    else
      { id := f.name ++ "-" ++ natRepr i, name := f.name,
        label := cfg.prefixText ++ padNumber (cfg.startNumber + i) cfg.digits,
        hasBlob := true, error := none }

/-- `sortedFiles` (`App.tsx:150-154`): the picked files sorted by
`naturalCompare` on their names. -/
def sortedFilesModel (lc : String → String → Int) (files : List FileEntry) :
    List FileEntry :=
  sortByLe (fun a b => decide (naturalCompare lc a.name b.name ≤ 0)) files

/-- `renderAll` (`App.tsx:180-289`) as a transition on the final state: the
guard `if (!sortedFiles.length) return;` leaves the state untouched;
otherwise the previews are replaced by the loop's results, the rendering
flag ends false (the `finally`), and progress ends at
`{done: n, total: n}` for `n` files. -/
def renderAllModel (lc : String → String → Int) (cfg : StampConfig)
    (st : AppState) : AppState :=
  let sorted := sortedFilesModel lc st.files
  if sorted.length = 0 then st
  else
    { st with
      previews := sorted.enum.map fun p => renderItem cfg p.1 p.2,
      isRendering := false,
      progress := { done := sorted.length, total := sorted.length } }

/-- The file extension chosen by `downloadZip` (`App.tsx:325`). -/
def extFor : OutputFormat → String
  | OutputFormat.jpeg => "jpg"
  | OutputFormat.png => "png"

/-- The ZIP entry names produced by `downloadZip` (`App.tsx:318-334`): the
previews holding a blob are filtered, then the entry for filtered index
`idx` is `padNumber(startNumber + idx) + "_" + base + "." + ext`. -/
def downloadZipNames (cfg : StampConfig) (previews : List PreviewItem) :
    List String :=
  let valid := previews.filter fun p => p.hasBlob
  valid.enum.map fun p =>
    padNumber (cfg.startNumber + p.1) cfg.digits ++ "_" ++
      stripExtension p.2.name ++ "." ++ extFor cfg.outputFormat

/-! ### The multi-resolution engine, modelled from the spec

The remaining definitions model the engine that is not under `src/`: the
Batch Runner (§4.4), Frame Composer (§4.3) and Naming Resolver (§4.5).
`types.ts` declares its per-cell data (`sequenceNumber`, `width`, `height`)
and `SettingsPanel.tsx`/`PreviewPanel.tsx` are its callers (per-spec
file-name prefixes/tags; the 1920x1080 and 500x750 renditions). -/

/-- Modelled from the spec: error kinds of §7 — `DecodeError`,
`SurfaceError`, `EncodeError`. -/
inductive ErrorKind
  | decodeError
  | surfaceError
  | encodeError
deriving DecidableEq

/-- Modelled from the spec: an `OutputSpec` of §3 (a named target size with
placement/typography parameters). -/
structure OutputSpec where
  key : String
  width : Nat
  height : Nat
  fontSize : Nat
  offsetX : Nat
  offsetY : Nat
  label : String
deriving DecidableEq

/-- Modelled from the spec: a `SourceItem`'s identifier together with its
decode behavior (`none` models a raster decode failure). -/
structure SourceItem where
  id : String
  decode : Option Raster
deriving DecidableEq

/-- Modelled from the spec: a `RenderCell` of §3 — the result of composing
one `(SourceItem, OutputSpec)` pair.  Encoded bytes are opaque tokens. -/
structure RenderCell where
  itemId : String
  specKey : String
  sequenceNumber : Int
  label : String
  width : Nat
  height : Nat
  encoded : Option (List Nat)
  error : Option ErrorKind
deriving DecidableEq

/-- Modelled from the spec: the run configuration of §6 used by the Batch
Runner for sequencing/labeling (`prefixText` is the label prefix). -/
structure RunConfig where
  prefixText : String
  startNumber : Int
  digits : Nat
deriving DecidableEq

/-- Modelled from the spec: the `StampStyle` of §3 (read-only per run). -/
structure StampStyle where
  fontFamily : String
  bold : Bool
  textColorHex : String
  useBackground : Bool
  backgroundColorHex : String
  backgroundAlpha : ℚ
  padding : Nat
  useShadow : Bool
  shadowAlpha : ℚ
deriving DecidableEq

/-- The drawn rectangle of a composed frame, in surface coordinates. -/
structure FitRect where
  x : ℚ
  y : ℚ
  w : ℚ
  h : ℚ
deriving DecidableEq

/-- Modelled from the spec: §4.3 step 3 —
`scale = min(surfaceWidth/sourceWidth, surfaceHeight/sourceHeight)`. -/
def fitScale (bw bh sw sh : ℚ) : ℚ := min (bw / sw) (bh / sh)

/-- Modelled from the spec: §4.3 step 3 — the centered scale-to-fit
rectangle `drawX/drawY/drawWidth/drawHeight`. -/
def fitRect (bw bh sw sh : ℚ) : FitRect :=
  { x := (bw - sw * fitScale bw bh sw sh) / 2,
    y := (bh - sh * fitScale bw bh sw sh) / 2,
    w := sw * fitScale bw bh sw sh,
    h := sh * fitScale bw bh sw sh }

/-- A successfully composed frame: the surface (exactly the spec's size),
the drawn source rectangle, the rendered label and the encoded output
(opaque). -/
structure ComposedFrame where
  width : Nat
  height : Nat
  drawn : FitRect
  label : String
  encoded : List Nat
deriving DecidableEq

/-- Modelled from the spec: the Frame Composer (§4.3) for one decoded
raster.  Surface allocation and encoding may fail (per §7 these are the
`SurfaceError`/`EncodeError` outcomes, driven here by the explicit
environment flags); text/background/shadow drawing only affects the opaque
encoded bytes and is not separately recorded. -/
def compose (raster : Raster) (spec : OutputSpec) (lbl : String)
    (surfaceOk encodeOk : Bool) : Except ErrorKind ComposedFrame :=
  if surfaceOk = false then Except.error ErrorKind.surfaceError
  else
    let fr := fitRect (spec.width : ℚ) (spec.height : ℚ) (raster.w : ℚ) (raster.h : ℚ)
    if encodeOk = false then Except.error ErrorKind.encodeError
    else Except.ok { width := spec.width, height := spec.height, drawn := fr,
                     label := lbl, encoded := [] }

/-- Modelled from the spec: the outcome of one cell — a source decode
failure yields `DecodeError` for every spec of that source (§4.4);
otherwise the composer (abstracted as `composeFn`, which may fail with any
per-cell error kind) runs for this `(source, spec)` pair. -/
def cellOutcome (composeFn : Raster → OutputSpec → Except ErrorKind (List Nat))
    (src : SourceItem) (spec : OutputSpec) : Except ErrorKind (List Nat) :=
  match src.decode with
  | none => Except.error ErrorKind.decodeError
  | some r => composeFn r spec

/-- Modelled from the spec: the `RenderCell` for source position `i` —
`sequenceNumber = startNumber + i` (§3 invariant), label from the Label
Formatter (§4.2), and exactly one of `encoded`/`error` populated. -/
def cellFor (cf : RunConfig) (composeFn : Raster → OutputSpec → Except ErrorKind (List Nat))
    (i : Nat) (src : SourceItem) (spec : OutputSpec) : RenderCell :=
  let n : Int := cf.startNumber + i
  { itemId := src.id, specKey := spec.key, sequenceNumber := n,
    label := cf.prefixText ++ padNumber n cf.digits,
    width := spec.width, height := spec.height,
    encoded := match cellOutcome composeFn src spec with
      | Except.ok b => some b
      | Except.error _ => none,
    error := match cellOutcome composeFn src spec with
      | Except.ok _ => none
      | Except.error e => some e }

/-- Modelled from the spec: the Batch Runner's mutable run state —
accumulated cells, the progress counter and its fixed total, and the trace
of `done` values reported through the progress callback. -/
structure RunState where
  cells : List RenderCell
  done : Nat
  total : Nat
  trace : List Nat
deriving DecidableEq

/-- Completing one cell: append it, increment `done` by exactly one and
report the new value (§4.4). -/
def stepCell (st : RunState) (c : RenderCell) : RunState :=
  { st with
    cells := st.cells ++ [c],
    done := st.done + 1,
    trace := st.trace ++ [st.done + 1] }

/-- Modelled from the spec: the inner loop of §4.4 — all specs for one
source, in order. -/
def runSpecs (cf : RunConfig)
    (composeFn : Raster → OutputSpec → Except ErrorKind (List Nat))
    (i : Nat) (src : SourceItem) :
    List OutputSpec → RunState → RunState
  | [], st => st
  | spec :: rest, st =>
    runSpecs cf composeFn i src rest (stepCell st (cellFor cf composeFn i src spec))

/-- Modelled from the spec: the outer loop of §4.4 over the position-indexed
sources. -/
def runSources (cf : RunConfig)
    (composeFn : Raster → OutputSpec → Except ErrorKind (List Nat))
    (specs : List OutputSpec) :
    List (Nat × SourceItem) → RunState → RunState
  | [], st => st
  | p :: rest, st =>
    runSources cf composeFn specs rest (runSpecs cf composeFn p.1 p.2 specs st)

/-- Modelled from the spec: `run(sources, specs, ...)` of §4.4 —
`total = |sources| × |specs|` fixed at start, `done = 0`, then the
cartesian product driven source-outer/spec-inner. -/
def run (cf : RunConfig)
    (composeFn : Raster → OutputSpec → Except ErrorKind (List Nat))
    (sources : List SourceItem) (specs : List OutputSpec) : RunState :=
  runSources cf composeFn specs sources.enum
    { cells := [], done := 0, total := sources.length * specs.length, trace := [] }

/-- Modelled from the spec: a per-`OutputSpec` naming rule of §4.5/§6 — a
file-name prefix (`pfx`) and a tag (the landscape/portrait prefix and tag
fields of `SettingsPanel.tsx`). -/
structure NamingRule where
  pfx : String
  tag : String
deriving DecidableEq

/-- Modelled from the spec: the Naming Resolver (§4.5) —
`prefix + baseName(cell) + "_" + tag + "." + extension` with the rule
looked up by the cell's spec key and `baseName` stripping the source's
original extension. -/
def fileName (cell : RenderCell) (rules : String → NamingRule) (ext : String) :
    String :=
  (rules cell.specKey).pfx ++ stripExtension cell.itemId ++ "_" ++
    (rules cell.specKey).tag ++ "." ++ ext

deriving instance DecidableEq for Except

/-! ### Concrete instances used by witnesses and counterexamples -/

/-- A degenerate collation (every comparison ties). -/
def lcZero : String → String → Int := fun _ _ => 0

/-- A strict collation built from the lexicographic order on `String`;
instantiates the abstract `localeCompare(_, "ja")` parameter in witnesses. -/
def lcStd : String → String → Int := fun a b =>
  if a < b then -1 else if b < a then 1 else 0

/-- Settings: prefix `"EP "`, start number 5, two digits, PNG output. -/
def cfgA : StampConfig :=
  { prefixText := "EP ", startNumber := 5, digits := 2, outputFormat := OutputFormat.png }

/-- Two picked files: `a.png` fails to decode, `b.png` decodes. -/
def filesA : List FileEntry :=
  [{ name := "a.png", decode := none, ctxOk := true },
   { name := "b.png", decode := some { w := 4, h := 3 }, ctxOk := true }]

/-- Initial state holding `filesA`. -/
def stA : AppState :=
  { files := filesA, previews := [], isRendering := false,
    progress := { done := 0, total := 0 } }

/-- A state with no files but with previews and progress left over from an
earlier completed run. -/
def stKeep : AppState :=
  { files := [],
    previews := [{ id := "x.png-0", name := "x.png", label := "EP 01",
                   hasBlob := true, error := none }],
    isRendering := false, progress := { done := 2, total := 2 } }

/-- Run configuration for the spec-modelled engine. -/
def cfB : RunConfig := { prefixText := "EP ", startNumber := 5, digits := 2 }

/-- The reference landscape output specification (1920x1080, §6). -/
def specL : OutputSpec :=
  { key := "landscape", width := 1920, height := 1080, fontSize := 64,
    offsetX := 30, offsetY := 30, label := "1920x1080" }

/-- The reference portrait output specification (500x750, §6). -/
def specP : OutputSpec :=
  { key := "portrait", width := 500, height := 750, fontSize := 40,
    offsetX := 20, offsetY := 20, label := "500x750" }

/-- A composer that always succeeds. -/
def composeOk : Raster → OutputSpec → Except ErrorKind (List Nat) :=
  fun _ _ => Except.ok [1]

/-- A composer that fails with `SurfaceError` on spec `"A"`, with
`EncodeError` on spec `"B"`, and succeeds otherwise. -/
def composeMixed : Raster → OutputSpec → Except ErrorKind (List Nat) :=
  fun r spec =>
    if spec.key = "A" then Except.error ErrorKind.surfaceError
    else if spec.key = "B" then Except.error ErrorKind.encodeError
    else Except.ok [r.w]

/-- Three output specifications keyed `"A"`, `"B"`, `"C"`. -/
def specsABC : List OutputSpec :=
  [{ key := "A", width := 100, height := 100, fontSize := 10, offsetX := 0,
     offsetY := 0, label := "A" },
   { key := "B", width := 200, height := 100, fontSize := 10, offsetX := 0,
     offsetY := 0, label := "B" },
   { key := "C", width := 300, height := 100, fontSize := 10, offsetX := 0,
     offsetY := 0, label := "C" }]

/-- A source that decodes to an 800x600 raster. -/
def validSrc : SourceItem := { id := "valid.png", decode := some { w := 800, h := 600 } }

/-- A source whose raster fails to decode. -/
def corruptSrc : SourceItem := { id := "corrupt.png", decode := none }

/-- Naming rules: the reference landscape/portrait prefixes and tags shown
in `SettingsPanel.tsx` (`No7_`/`Horizontal`, `No8_`/`Vertical`). -/
def rulesEx : String → NamingRule := fun k =>
  if k = "landscape" then { pfx := "No7_", tag := "Horizontal" }
  else { pfx := "No8_", tag := "Vertical" }

/-- A completed landscape cell for source `img1.png`. -/
def cellEx : RenderCell :=
  { itemId := "img1.png", specKey := "landscape", sequenceNumber := 5,
    label := "EP 05", width := 1920, height := 1080, encoded := some [1],
    error := none }

/-! ## Lemmas and claim theorems -/

/-! ### Generic list helpers -/

theorem dropWhile_eq_self_of_forall {α : Type} (p : α → Bool) :
    ∀ l : List α, (∀ c ∈ l, p c = false) → l.dropWhile p = l := by
  intro l h
  cases l with
  | nil => rfl
  | cons x xs =>
    have hx : p x = false := h x (List.mem_cons_self x xs)
    simp [List.dropWhile, hx]

theorem takeWhile_append_cons {α : Type} (p : α → Bool) :
    ∀ (l1 : List α) (x : α) (l2 : List α), (∀ c ∈ l1, p c = true) → p x = false →
      (l1 ++ x :: l2).takeWhile p = l1 ∧ (l1 ++ x :: l2).dropWhile p = x :: l2 := by
  intro l1
  induction l1 with
  | nil =>
    intro x l2 _ hx
    simp [List.takeWhile, List.dropWhile, hx]
  | cons a as ih =>
    intro x l2 h hx
    have ha : p a = true := h a (List.mem_cons_self a as)
    have hrest := ih x l2 (fun c hc => h c (List.mem_cons_of_mem a hc)) hx
    simp [List.takeWhile, List.dropWhile, ha, hrest.1, hrest.2]

/-! ### Decimal rendering lemmas -/

theorem digitChar_toNat : ∀ d, d < 10 → (digitChar d).toNat = 48 + d := by decide

theorem digitsVal_append_singleton (l : List Char) (c : Char) :
    digitsVal (l ++ [c]) = 10 * digitsVal l + (c.toNat - 48) := by
  simp [digitsVal, List.foldl_append]

theorem natReprAux_digits :
    ∀ fuel n, n < 10 ^ fuel → ∀ c ∈ natReprAux fuel n, 48 ≤ c.toNat ∧ c.toNat ≤ 57 := by
  intro fuel
  induction fuel with
  | zero => intro n _ c hc; simp [natReprAux] at hc
  | succ f ih =>
    intro n hn c hc
    by_cases hsmall : n < 10
    · simp [natReprAux, hsmall] at hc
      subst hc
      have := digitChar_toNat n hsmall
      omega
    · simp [natReprAux, hsmall] at hc
      rcases hc with hc | hc
      · have hdiv : n / 10 < 10 ^ f := by
          have : n < 10 ^ f * 10 := by
            have := hn; rw [pow_succ] at this; omega
          exact Nat.div_lt_of_lt_mul (by omega)
        exact ih (n / 10) hdiv c hc
      · subst hc
        have hm : n % 10 < 10 := Nat.mod_lt _ (by omega)
        have := digitChar_toNat (n % 10) hm
        omega

theorem natReprAux_val :
    ∀ fuel n, n < 10 ^ fuel → digitsVal (natReprAux fuel n) = n := by
  intro fuel
  induction fuel with
  | zero =>
    intro n hn
    have hn0 : n = 0 := by simpa using hn
    subst hn0
    rfl
  | succ f ih =>
    intro n hn
    by_cases hsmall : n < 10
    · have h10 : (digitChar n).toNat = 48 + n := digitChar_toNat n hsmall
      simp [natReprAux, hsmall, digitsVal, h10]
    · have hdiv : n / 10 < 10 ^ f := by
        have : n < 10 ^ f * 10 := by
          have := hn; rw [pow_succ] at this; omega
        exact Nat.div_lt_of_lt_mul (by omega)
      have hm : n % 10 < 10 := Nat.mod_lt _ (by omega)
      have h10 : (digitChar (n % 10)).toNat = 48 + n % 10 := digitChar_toNat _ hm
      simp [natReprAux, hsmall, digitsVal_append_singleton, ih (n / 10) hdiv, h10]
      omega

theorem natReprAux_ne_nil (f n : Nat) : natReprAux (f + 1) n ≠ [] := by
  by_cases hsmall : n < 10 <;> simp [natReprAux, hsmall]

theorem lt_ten_pow_succ (n : Nat) : n < 10 ^ (n + 1) := by
  have h1 : n < 10 ^ n := Nat.lt_pow_self (by norm_num) n
  have h2 : 10 ^ n ≤ 10 ^ (n + 1) := Nat.pow_le_pow_right (by norm_num) (by omega)
  omega

theorem natRepr_digits (n : Nat) :
    ∀ c ∈ (natRepr n).data, 48 ≤ c.toNat ∧ c.toNat ≤ 57 :=
  fun c hc => natReprAux_digits (n + 1) n (lt_ten_pow_succ n) c hc

theorem digitsVal_natRepr (n : Nat) : digitsVal (natRepr n).data = n :=
  natReprAux_val (n + 1) n (lt_ten_pow_succ n)

theorem natRepr_data_ne_nil (n : Nat) : (natRepr n).data ≠ [] :=
  natReprAux_ne_nil n n

theorem intRepr_nonneg_digits (n : Int) (h : 0 ≤ n) :
    ∀ c ∈ (intRepr n).data, 48 ≤ c.toNat ∧ c.toNat ≤ 57 := by
  unfold intRepr
  rw [if_neg (by omega)]
  exact natRepr_digits n.toNat

theorem padNumber_spec (n : Int) (d : Nat) :
    (0 ≤ n → ∀ c ∈ (padNumber n d).data, 48 ≤ c.toNat ∧ c.toNat ≤ 57) ∧
    d ≤ (padNumber n d).length ∧
    (intRepr n).length ≤ (padNumber n d).length ∧
    ∃ z, (padNumber n d).data = z ++ (intRepr n).data ∧ ∀ c ∈ z, c = '0' := by
  by_cases hle : d ≤ (intRepr n).length
  · have hpn : padNumber n d = intRepr n := by simp [padNumber, hle]
    refine ⟨fun hn c hc => ?_, ?_, ?_, [], by simp [hpn], by simp⟩
    · rw [hpn] at hc; exact intRepr_nonneg_digits n hn c hc
    · rw [hpn]; exact hle
    · rw [hpn]
  · have hpn : (padNumber n d).data =
        List.replicate (d - (intRepr n).length) '0' ++ (intRepr n).data := by
      simp [padNumber, hle]
    have hlen : (padNumber n d).length =
        (d - (intRepr n).length) + (intRepr n).length := by
      have hdl : (padNumber n d).length = (padNumber n d).data.length := rfl
      rw [hdl, hpn, List.length_append, List.length_replicate]
      rfl
    refine ⟨fun hn c hc => ?_, by omega, by omega,
      List.replicate (d - (intRepr n).length) '0', hpn, ?_⟩
    · rw [hpn] at hc
      rcases List.mem_append.mp hc with hc | hc
      · have : c = '0' := List.eq_of_mem_replicate hc
        subst this; decide
      · exact intRepr_nonneg_digits n hn c hc
    · intro c hc
      exact List.eq_of_mem_replicate hc

/-- C4 counterexample: the claim asserts that for ANY integer
`n = startNumber + position` the rendering has no sign, but for a negative
`n` the JS rendering `String(n)` begins with `'-'`:
`padNumber(-5, 2) = "-5"` and the label for `startNumber = -6`,
`position = 1` is `"EP.-5"`. -/
theorem c4_sign_counterexample :
    padNumber (-5) 2 = "-5" ∧ '-' ∈ (padNumber (-5) 2).data ∧
    labelFmt "EP." (-6) 1 2 = "EP.-5" := by decide

/-- C4 (amended): the label formatter is a pure total function; for any
non-negative `digits` and integer `n = startNumber + position` it left-pads
the rendering of `n` with `'0'` to at least `digits` characters, never
truncates the rendering, and prepends the prefix; when `n ≥ 0` the
rendering consists solely of decimal digits (no sign).  The documented
examples hold: `label("EP.", 1, 0, 2) = "EP.01"` and
`label("EP.", 1, 9, 1) = "EP.10"`. -/
theorem c4_label_formatter_amended (p : String) (s pos : Int) (d : Nat) :
    (0 ≤ s + pos →
      ∀ c ∈ (padNumber (s + pos) d).data, 48 ≤ c.toNat ∧ c.toNat ≤ 57) ∧
    d ≤ (padNumber (s + pos) d).length ∧
    (intRepr (s + pos)).length ≤ (padNumber (s + pos) d).length ∧
    (∃ z, (padNumber (s + pos) d).data = z ++ (intRepr (s + pos)).data ∧
      ∀ c ∈ z, c = '0') ∧
    labelFmt p s pos d = p ++ padNumber (s + pos) d ∧
    labelFmt "EP." 1 0 2 = "EP.01" ∧ labelFmt "EP." 1 9 1 = "EP.10" := by
  obtain ⟨h1, h2, h3, h4⟩ := padNumber_spec (s + pos) d
  exact ⟨h1, h2, h3, h4, rfl, by decide, by decide⟩

/-- C4 witness: the amended theorem applied at `prefix = "EP."`,
`startNumber = 1`, `position = 0`, `digits = 2`, discharging the
sign-freedom hypothesis at the concrete non-negative sequence number. -/
theorem c4_label_formatter_amended_witness :
    (∀ c ∈ (padNumber ((1 : Int) + 0) 2).data, 48 ≤ c.toNat ∧ c.toNat ≤ 57) ∧
    labelFmt "EP." 1 0 2 = "EP.01" :=
  ⟨(c4_label_formatter_amended "EP." 1 0 2).1 (by decide),
   (c4_label_formatter_amended "EP." 1 0 2).2.2.2.2.2.1⟩

/-! ### Order properties of `compareToks`/`naturalCompare` -/

theorem isDigitChar_iff (c : Char) :
    isDigitChar c = true ↔ 48 ≤ c.toNat ∧ c.toNat ≤ 57 := by
  simp [isDigitChar]

theorem numDiff_eq_zero : ∀ x y : Option Nat, numDiff x y = 0 → x = y := by
  intro x y h
  cases x <;> cases y <;> (simp [numDiff] at h ⊢) <;> omega

theorem numDiff_antisym : ∀ x y : Option Nat, numDiff x y < 0 ↔ 0 < numDiff y x := by
  intro x y
  cases x <;> cases y <;> (simp only [numDiff]) <;> omega

theorem numDiff_trans : ∀ x y z : Option Nat, x ≠ y → y ≠ z →
    numDiff x y < 0 → numDiff y z < 0 → numDiff x z < 0 ∧ x ≠ z := by
  intro x y z hxy hyz h1 h2
  cases x <;> cases y <;> cases z <;> simp [numDiff] at h1 h2 ⊢ <;> omega

theorem compareToks_refl (lc : String → String → Int) :
    ∀ t : List NatTok, compareToks lc t t = 0 := by
  intro t
  induction t with
  | nil => rfl
  | cons a as ih => simp [compareToks, ih]

theorem compareToks_eq_zero {lc : String → String → Int}
    (hz : ∀ x y, lc x y = 0 → x = y) :
    ∀ t u : List NatTok, compareToks lc t u = 0 → t = u := by
  intro t
  induction t with
  | nil =>
    intro u h
    cases u with
    | nil => rfl
    | cons b bs =>
      exfalso
      simp [compareToks] at h
      omega
  | cons a as ih =>
    intro u h
    cases u with
    | nil =>
      exfalso
      simp [compareToks] at h
      omega
    | cons b bs =>
      by_cases h1 : a.1 = b.1
      · by_cases h2 : a.2 = b.2
        · have hrec : compareToks lc as bs = 0 := by
            simpa [compareToks, h1, h2] using h
          have hab : a = b := by
            cases a; cases b; simp_all
          simp [hab, ih bs hrec]
        · have hlc : lc a.2 b.2 = 0 := by simpa [compareToks, h1, h2] using h
          exact absurd (hz _ _ hlc) h2
      · have hnd : numDiff a.1 b.1 = 0 := by simpa [compareToks, h1] using h
        exact absurd (numDiff_eq_zero _ _ hnd) h1

theorem compareToks_antisym {lc : String → String → Int}
    (ha : ∀ x y, lc x y < 0 ↔ 0 < lc y x) :
    ∀ t u : List NatTok, compareToks lc t u < 0 ↔ 0 < compareToks lc u t := by
  intro t
  induction t with
  | nil =>
    intro u
    cases u with
    | nil => simp [compareToks]
    | cons b bs =>
      simp [compareToks]
      omega
  | cons a as ih =>
    intro u
    cases u with
    | nil =>
      simp [compareToks]
      omega
    | cons b bs =>
      by_cases h1 : a.1 = b.1
      · by_cases h2 : a.2 = b.2
        · simp [compareToks, h1, h2]
          exact ih bs
        · have h2s : ¬ b.2 = a.2 := fun h => h2 h.symm
          simp [compareToks, h1, h2, h2s]
          exact ha a.2 b.2
      · have h1s : ¬ b.1 = a.1 := fun h => h1 h.symm
        simp [compareToks, h1, h1s]
        exact numDiff_antisym a.1 b.1

theorem compareToks_trans {lc : String → String → Int}
    (ha : ∀ x y, lc x y < 0 ↔ 0 < lc y x)
    (ht : ∀ x y z, lc x y < 0 → lc y z < 0 → lc x z < 0) :
    ∀ t u v : List NatTok, compareToks lc t u < 0 → compareToks lc u v < 0 →
      compareToks lc t v < 0 := by
  intro t
  induction t with
  | nil =>
    intro u v h1 h2
    cases v with
    | nil =>
      exfalso
      cases u with
      | nil => simp [compareToks] at h1
      | cons b bs =>
        simp [compareToks] at h2
        omega
    | cons c cs =>
      simp [compareToks]
      omega
  | cons a as ih =>
    intro u v h1 h2
    cases u with
    | nil =>
      exfalso
      simp [compareToks] at h1
      omega
    | cons b bs =>
      cases v with
      | nil =>
        exfalso
        simp [compareToks] at h2
        omega
      | cons c cs =>
        by_cases hab1 : a.1 = b.1
        · by_cases hab2 : a.2 = b.2
          · have h1' : compareToks lc as bs < 0 := by
              simpa [compareToks, hab1, hab2] using h1
            by_cases hbc1 : b.1 = c.1
            · by_cases hbc2 : b.2 = c.2
              · have h2' : compareToks lc bs cs < 0 := by
                  simpa [compareToks, hbc1, hbc2] using h2
                have hac1 : a.1 = c.1 := hab1.trans hbc1
                have hac2 : a.2 = c.2 := hab2.trans hbc2
                simpa [compareToks, hac1, hac2] using ih bs cs h1' h2'
              · have h2' : lc b.2 c.2 < 0 := by
                  simpa [compareToks, hbc1, hbc2] using h2
                have hac1 : a.1 = c.1 := hab1.trans hbc1
                have hne : ¬ a.2 = c.2 := by rw [hab2]; exact hbc2
                have heq : compareToks lc (a :: as) (c :: cs) = lc a.2 c.2 := by
                  simp [compareToks, hac1, hne]
                rw [heq, hab2]
                exact h2'
            · have h2' : numDiff b.1 c.1 < 0 := by
                simpa [compareToks, hbc1] using h2
              have hne : ¬ a.1 = c.1 := by rw [hab1]; exact hbc1
              have heq : compareToks lc (a :: as) (c :: cs) = numDiff a.1 c.1 := by
                simp [compareToks, hne]
              rw [heq, hab1]
              exact h2'
          · have h1' : lc a.2 b.2 < 0 := by
              simpa [compareToks, hab1, hab2] using h1
            by_cases hbc1 : b.1 = c.1
            · by_cases hbc2 : b.2 = c.2
              · have hac1 : a.1 = c.1 := hab1.trans hbc1
                have hne : ¬ a.2 = c.2 := by rw [← hbc2]; exact hab2
                have heq : compareToks lc (a :: as) (c :: cs) = lc a.2 c.2 := by
                  simp [compareToks, hac1, hne]
                rw [heq, ← hbc2]
                exact h1'
              · have h2' : lc b.2 c.2 < 0 := by
                  simpa [compareToks, hbc1, hbc2] using h2
                have hac := ht _ _ _ h1' h2'
                have hne : ¬ a.2 = c.2 := by
                  intro hEq
                  rw [hEq] at h1'
                  have hgt := (ha _ _).mp h2'
                  omega
                have hac1 : a.1 = c.1 := hab1.trans hbc1
                have heq : compareToks lc (a :: as) (c :: cs) = lc a.2 c.2 := by
                  simp [compareToks, hac1, hne]
                rw [heq]
                exact hac
            · have h2' : numDiff b.1 c.1 < 0 := by
                simpa [compareToks, hbc1] using h2
              have hne : ¬ a.1 = c.1 := by rw [hab1]; exact hbc1
              have heq : compareToks lc (a :: as) (c :: cs) = numDiff a.1 c.1 := by
                simp [compareToks, hne]
              rw [heq, hab1]
              exact h2'
        · have h1' : numDiff a.1 b.1 < 0 := by simpa [compareToks, hab1] using h1
          by_cases hbc1 : b.1 = c.1
          · have hne : ¬ a.1 = c.1 := by rw [← hbc1]; exact hab1
            have heq : compareToks lc (a :: as) (c :: cs) = numDiff a.1 c.1 := by
              simp [compareToks, hne]
            rw [heq, ← hbc1]
            exact h1'
          · have h2' : numDiff b.1 c.1 < 0 := by simpa [compareToks, hbc1] using h2
            obtain ⟨hlt, hne⟩ := numDiff_trans a.1 b.1 c.1 hab1 hbc1 h1' h2'
            have heq : compareToks lc (a :: as) (c :: cs) = numDiff a.1 c.1 := by
              simp [compareToks, hne]
            rw [heq]
            exact hlt

theorem compareToks_self_append (lc : String → String → Int) :
    ∀ t r : List NatTok, r ≠ [] → compareToks lc t (t ++ r) < 0 := by
  intro t
  induction t with
  | nil =>
    intro r hr
    cases r with
    | nil => exact absurd rfl hr
    | cons x xs =>
      simp [compareToks]
      omega
  | cons a as ih =>
    intro r hr
    simpa [compareToks] using ih r hr

theorem tokenizeRuns_const (b : Bool) :
    ∀ l : List Char, l ≠ [] → (∀ c ∈ l, isDigitChar c = b) →
      tokenizeRuns l = [(b, l)] := by
  intro l
  induction l with
  | nil => intro h; exact absurd rfl h
  | cons c cs ih =>
    intro _ hall
    have hc : isDigitChar c = b := hall c (List.mem_cons_self c cs)
    cases cs with
    | nil => simp [tokenizeRuns, hc]
    | cons d ds =>
      have hrec : tokenizeRuns (d :: ds) = [(b, d :: ds)] :=
        ih (by simp) (fun x hx => hall x (List.mem_cons_of_mem c hx))
      have step : tokenizeRuns (c :: d :: ds) =
          match tokenizeRuns (d :: ds) with
          | (b1, r) :: t =>
            if b1 = isDigitChar c then (b1, c :: r) :: t
            else (isDigitChar c, [c]) :: (b1, r) :: t
          | [] => [(isDigitChar c, [c])] := rfl
      rw [step, hrec]
      simp [hc]

theorem toks_natRepr (n : Nat) : toks (natRepr n) = [(some n, "")] := by
  have hdig : ∀ c ∈ (natRepr n).data, isDigitChar c = true := by
    intro c hc
    exact (isDigitChar_iff c).mpr (natRepr_digits n c hc)
  have htr : tokenizeRuns (natRepr n).data = [(true, (natRepr n).data)] :=
    tokenizeRuns_const true (natRepr n).data (natRepr_data_ne_nil n) hdig
  simp [toks, htr, digitsVal_natRepr]

theorem toks_nondigit (s : String) (hne : s.data ≠ [])
    (hnd : ∀ c ∈ s.data, isDigitChar c = false) : toks s = [(none, s)] := by
  have htr : tokenizeRuns s.data = [(false, s.data)] :=
    tokenizeRuns_const false s.data hne hnd
  simp [toks, htr]

theorem lcStd_zero : ∀ x y : String, lcStd x y = 0 → x = y := by
  intro x y h
  unfold lcStd at h
  split_ifs at h with h1 h2
  all_goals first
    | (exact absurd h (by omega))
    | (exact le_antisymm (le_of_not_lt h2) (le_of_not_lt h1))

theorem lcStd_antisym : ∀ x y : String, lcStd x y < 0 ↔ 0 < lcStd y x := by
  intro x y
  unfold lcStd
  rcases lt_trichotomy x y with h | h | h
  · simp [h, asymm h]
  · subst h
    simp [lt_irrefl]
  · simp [h, asymm h]

theorem lcStd_trans :
    ∀ x y z : String, lcStd x y < 0 → lcStd y z < 0 → lcStd x z < 0 := by
  intro x y z h1 h2
  have hxy : x < y := by
    unfold lcStd at h1
    split_ifs at h1
    · assumption
    · omega
    · omega
  have hyz : y < z := by
    unfold lcStd at h2
    split_ifs at h2
    · assumption
    · omega
    · omega
  have : x < z := lt_trans hxy hyz
  simp [lcStd, this]

/-- C3: parameterized over any collation `lc` modelling
`localeCompare(_, "ja")` that is itself a strict total comparator
(ties only on equal strings, sign-antisymmetric, transitive),
`naturalCompare` is a total preorder on identifier strings: it is
transitive, sign-antisymmetric (hence any two strings are comparable), and
ties exactly when the two token streams coincide (distinct numerals of
equal value, e.g. `"01"`/`"1"`, tie — the run breaks such ties by the
sort's stability, per the spec).  Maximal digit runs are compared as
integers, maximal non-digit runs are compared by the collation, a strict
prefix of a token stream sorts before the longer stream, and sorting
`["img2.png", "img10.png", "img1.png"]` yields
`["img1.png", "img2.png", "img10.png"]` (for every collation, since the
string components compared there are equal). -/
theorem c3_natural_order (lc : String → String → Int)
    (hz : ∀ x y, lc x y = 0 → x = y)
    (ha : ∀ x y, lc x y < 0 ↔ 0 < lc y x)
    (ht : ∀ x y z, lc x y < 0 → lc y z < 0 → lc x z < 0) :
    (∀ a b c, naturalCompare lc a b < 0 → naturalCompare lc b c < 0 →
      naturalCompare lc a c < 0) ∧
    (∀ a b, naturalCompare lc a b < 0 ↔ 0 < naturalCompare lc b a) ∧
    (∀ a b, naturalCompare lc a b = 0 ↔ toks a = toks b) ∧
    (∀ n m : Nat, n ≠ m →
      (naturalCompare lc (natRepr n) (natRepr m) < 0 ↔ n < m)) ∧
    (∀ s t : String, s.data ≠ [] → t.data ≠ [] →
      (∀ c ∈ s.data, isDigitChar c = false) →
      (∀ c ∈ t.data, isDigitChar c = false) →
      s ≠ t → naturalCompare lc s t = lc s t) ∧
    (∀ a b : String, (∃ r, r ≠ [] ∧ toks b = toks a ++ r) →
      naturalCompare lc a b < 0) ∧
    sortedNames lc ["img2.png", "img10.png", "img1.png"] =
      ["img1.png", "img2.png", "img10.png"] := by
  refine ⟨?_, ?_, ?_, ?_, ?_, ?_, ?_⟩
  · intro a b c h1 h2
    exact compareToks_trans ha ht (toks a) (toks b) (toks c) h1 h2
  · intro a b
    exact compareToks_antisym ha (toks a) (toks b)
  · intro a b
    constructor
    · intro h
      exact compareToks_eq_zero hz (toks a) (toks b) h
    · intro h
      unfold naturalCompare
      rw [h]
      exact compareToks_refl lc (toks b)
  · intro n m hnm
    unfold naturalCompare
    rw [toks_natRepr, toks_natRepr]
    have hsome : (some n : Option Nat) ≠ some m := by simpa using hnm
    simp [compareToks, hsome, numDiff]
  · intro s t hs ht' hnds hndt hne
    unfold naturalCompare
    rw [toks_nondigit s hs hnds, toks_nondigit t ht' hndt]
    simp [compareToks, hne]
  · intro a b h
    obtain ⟨r, hr, hb⟩ := h
    unfold naturalCompare
    rw [hb]
    exact compareToks_self_append lc (toks a) r hr
  · rfl

/-- C3 witness: the theorem applied to the strict lexicographic collation
`lcStd`, at the concrete numerals 2 and 10 and at the documented
three-file example. -/
theorem c3_natural_order_witness :
    (naturalCompare lcStd (natRepr 2) (natRepr 10) < 0 ↔ 2 < 10) ∧
    sortedNames lcStd ["img2.png", "img10.png", "img1.png"] =
      ["img1.png", "img2.png", "img10.png"] :=
  ⟨(c3_natural_order lcStd lcStd_zero lcStd_antisym lcStd_trans).2.2.2.1 2 10
      (by decide),
   (c3_natural_order lcStd lcStd_zero lcStd_antisym lcStd_trans).2.2.2.2.2.2⟩

/-! ### `stripExtension` and the Naming Resolver -/

theorem stripExtension_append (base extv : String) (hne : extv ≠ "")
    (hdot : ∀ c ∈ extv.data, c ≠ '.') :
    stripExtension (base ++ "." ++ extv) = base := by
  have hdata : (base ++ "." ++ extv).data = base.data ++ '.' :: extv.data := by
    rw [String.data_append, String.data_append, List.append_assoc]
    rfl
  have hrev : (base ++ "." ++ extv).data.reverse =
      extv.data.reverse ++ '.' :: base.data.reverse := by
    rw [hdata, List.reverse_append]
    simp
  have hall : ∀ c ∈ extv.data.reverse, (fun c => decide (c ≠ '.')) c = true := by
    intro c hc
    simp
    exact hdot c (List.mem_reverse.mp hc)
  have hsplit := takeWhile_append_cons (fun c => decide (c ≠ '.'))
    extv.data.reverse '.' base.data.reverse hall (by simp)
  have hexts : extv.data ≠ [] := by
    intro h
    exact hne (by cases extv; simp_all)
  have h1 : extv.data.reverse ≠ [] := by simpa using hexts
  simp only [stripExtension]
  rw [hrev, hsplit.1, hsplit.2]
  rw [if_neg (by simp [h1])]
  have htail : ('.' :: base.data.reverse).tail = base.data.reverse := rfl
  rw [htail, List.reverse_reverse]

/-- C8: the export file name is a pure function of the cell's `itemId` and
`specKey` and of the naming rule keyed by that `specKey` (cells agreeing on
those fields get the same name, whatever their other fields or any other
state), composed as `prefix ++ baseName ++ "_" ++ tag ++ "." ++ extension`
where `baseName` strips the source's original extension; concretely, the
landscape cell for `img1.png` under the reference rules is named
`No7_img1_Horizontal.jpg`. -/
theorem c8_naming_resolver :
    (∀ (rules : String → NamingRule) (ext : String) (c c' : RenderCell),
      c.itemId = c'.itemId → c.specKey = c'.specKey →
      fileName c rules ext = fileName c' rules ext) ∧
    (∀ (rules : String → NamingRule) (ext : String) (c : RenderCell)
      (base extv : String), c.itemId = base ++ "." ++ extv → extv ≠ "" →
      (∀ ch ∈ extv.data, ch ≠ '.') →
      fileName c rules ext =
        (rules c.specKey).pfx ++ base ++ "_" ++ (rules c.specKey).tag ++ "." ++ ext) ∧
    fileName cellEx rulesEx "jpg" = "No7_img1_Horizontal.jpg" := by
  refine ⟨?_, ?_, by decide⟩
  · intro rules ext c c' h1 h2
    unfold fileName
    rw [h1, h2]
  · intro rules ext c base extv hid hne hdot
    unfold fileName
    rw [hid, stripExtension_append base extv hne hdot]

/-- C8 witness: the purity conjunct applied to two cells differing in all
fields except `itemId`/`specKey`, and the composition conjunct applied to
`img1.png` split as `img1` + `.png`. -/
theorem c8_naming_resolver_witness :
    fileName cellEx rulesEx "jpg" =
      fileName { itemId := "img1.png", specKey := "landscape",
                 sequenceNumber := 9, label := "other", width := 1,
                 height := 1, encoded := none,
                 error := some ErrorKind.decodeError } rulesEx "jpg" ∧
    fileName cellEx rulesEx "jpg" =
      (rulesEx cellEx.specKey).pfx ++ "img1" ++ "_" ++
        (rulesEx cellEx.specKey).tag ++ "." ++ "jpg" :=
  ⟨c8_naming_resolver.1 rulesEx "jpg" cellEx _ (by decide) (by decide),
   c8_naming_resolver.2.1 rulesEx "jpg" cellEx "img1" "png" (by decide)
     (by decide) (by decide)⟩

/-! ### `hexToRgba` lemmas -/

theorem hexDigitChar_facts : ∀ d, d < 16 →
    isJsSpace (hexDigitChar d) = false ∧ isHexDigitChar (hexDigitChar d) = true ∧
    hexDigitVal (hexDigitChar d) = d ∧ hexDigitChar d ≠ '-' ∧
    hexDigitChar d ≠ '+' ∧ hexDigitChar d ≠ 'x' ∧ hexDigitChar d ≠ 'X' := by decide

theorem trimChars_eq_self (l : List Char) (h : ∀ c ∈ l, isJsSpace c = false) :
    trimChars l = l := by
  unfold trimChars
  rw [dropWhile_eq_self_of_forall isJsSpace l h]
  rw [dropWhile_eq_self_of_forall isJsSpace l.reverse
    (fun c hc => h c (List.mem_reverse.mp hc))]
  exact List.reverse_reverse l

theorem hexVal_pair (c1 c2 : Char) :
    hexVal [c1, c2] = 16 * hexDigitVal c1 + hexDigitVal c2 := by
  simp [hexVal]

theorem parseIntHex_pair (c1 c2 : Char) (h1 : isHexDigitChar c1 = true)
    (h2 : isHexDigitChar c2 = true) (hs : isJsSpace c1 = false)
    (hm : c1 ≠ '-') (hp : c1 ≠ '+') (hx : c2 ≠ 'x') (hX : c2 ≠ 'X') :
    parseIntHex [c1, c2] = some ((hexVal [c1, c2] : Nat) : Int) := by
  have hd : List.dropWhile isJsSpace [c1, c2] = [c1, c2] := by
    simp [List.dropWhile, hs]
  simp only [parseIntHex, hd]
  simp [List.takeWhile, h1, h2, hm, hp, hx, hX, hexVal]

theorem intRepr_natCast (n : Nat) : intRepr (n : Int) = natRepr n := by
  simp [intRepr]

/-- C9: `hexToRgba` is total on every background color string and alpha:
when the string, after removing the first `'#'` and trimming, is not
exactly 6 characters, the box color falls back to black at the given alpha
(`rgba(0,0,0,alpha)`); when it is a 6-hex-digit color `RRGGBB`, the three
parsed byte components (each below 256) are used with that alpha.  The
concrete cases show both branches and a malformed 6-character input
rendering `NaN` components rather than failing. -/
theorem c9_hex_to_rgba :
    (∀ hex alpha : String, (trimChars (removeFirst '#' hex.data)).length ≠ 6 →
      hexToRgba hex alpha = "rgba(0,0,0," ++ alpha ++ ")") ∧
    (∀ r g b : Nat, ∀ alpha : String, r < 256 → g < 256 → b < 256 →
      hexToRgba (String.mk ('#' :: (toHex2 r ++ toHex2 g ++ toHex2 b))) alpha =
        "rgba(" ++ natRepr r ++ "," ++ natRepr g ++ "," ++ natRepr b ++ "," ++
          alpha ++ ")") ∧
    hexToRgba "#ff8000" "0.55" = "rgba(255,128,0,0.55)" ∧
    hexToRgba "zz" "1" = "rgba(0,0,0,1)" ∧
    hexToRgba "#12x45z" "1" = "rgba(18,NaN,5,1)" := by
  refine ⟨?_, ?_, by decide, by decide, by decide⟩
  · intro hex alpha h
    simp only [hexToRgba]
    rw [if_pos h]
  · intro r g b alpha hr hg hb
    obtain ⟨sr1, hr1, vr1, mr1, pr1, xr1, Xr1⟩ := hexDigitChar_facts (r / 16) (by omega)
    obtain ⟨sr2, hr2, vr2, mr2, pr2, xr2, Xr2⟩ := hexDigitChar_facts (r % 16) (by omega)
    obtain ⟨sg1, hg1, vg1, mg1, pg1, xg1, Xg1⟩ := hexDigitChar_facts (g / 16) (by omega)
    obtain ⟨sg2, hg2, vg2, mg2, pg2, xg2, Xg2⟩ := hexDigitChar_facts (g % 16) (by omega)
    obtain ⟨sb1, hb1, vb1, mb1, pb1, xb1, Xb1⟩ := hexDigitChar_facts (b / 16) (by omega)
    obtain ⟨sb2, hb2, vb2, mb2, pb2, xb2, Xb2⟩ := hexDigitChar_facts (b % 16) (by omega)
    have hlist : toHex2 r ++ toHex2 g ++ toHex2 b =
        [hexDigitChar (r / 16), hexDigitChar (r % 16), hexDigitChar (g / 16),
         hexDigitChar (g % 16), hexDigitChar (b / 16), hexDigitChar (b % 16)] := by
      simp [toHex2]
    have hrm : removeFirst '#' ('#' :: [hexDigitChar (r / 16),
        hexDigitChar (r % 16), hexDigitChar (g / 16), hexDigitChar (g % 16),
        hexDigitChar (b / 16), hexDigitChar (b % 16)]) =
        [hexDigitChar (r / 16), hexDigitChar (r % 16), hexDigitChar (g / 16),
         hexDigitChar (g % 16), hexDigitChar (b / 16), hexDigitChar (b % 16)] := by
      simp [removeFirst]
    have htrim : trimChars [hexDigitChar (r / 16), hexDigitChar (r % 16),
        hexDigitChar (g / 16), hexDigitChar (g % 16), hexDigitChar (b / 16),
        hexDigitChar (b % 16)] =
        [hexDigitChar (r / 16), hexDigitChar (r % 16), hexDigitChar (g / 16),
         hexDigitChar (g % 16), hexDigitChar (b / 16), hexDigitChar (b % 16)] := by
      apply trimChars_eq_self
      intro c hc
      simp at hc
      rcases hc with rfl | rfl | rfl | rfl | rfl | rfl <;> assumption
    simp only [hexToRgba, hlist]
    rw [hrm, htrim]
    rw [if_neg (by simp)]
    have ht1 : List.take 2 [hexDigitChar (r / 16), hexDigitChar (r % 16),
        hexDigitChar (g / 16), hexDigitChar (g % 16), hexDigitChar (b / 16),
        hexDigitChar (b % 16)] = [hexDigitChar (r / 16), hexDigitChar (r % 16)] := rfl
    have ht2 : List.take 2 (List.drop 2 [hexDigitChar (r / 16), hexDigitChar (r % 16),
        hexDigitChar (g / 16), hexDigitChar (g % 16), hexDigitChar (b / 16),
        hexDigitChar (b % 16)]) = [hexDigitChar (g / 16), hexDigitChar (g % 16)] := rfl
    have ht3 : List.take 2 (List.drop 4 [hexDigitChar (r / 16), hexDigitChar (r % 16),
        hexDigitChar (g / 16), hexDigitChar (g % 16), hexDigitChar (b / 16),
        hexDigitChar (b % 16)]) = [hexDigitChar (b / 16), hexDigitChar (b % 16)] := rfl
    rw [ht1, ht2, ht3,
      parseIntHex_pair _ _ hr1 hr2 sr1 mr1 pr1 xr2 Xr2,
      parseIntHex_pair _ _ hg1 hg2 sg1 mg1 pg1 xg2 Xg2,
      parseIntHex_pair _ _ hb1 hb2 sb1 mb1 pb1 xb2 Xb2,
      hexVal_pair, hexVal_pair, hexVal_pair, vr1, vr2, vg1, vg2, vb1, vb2]
    have er : 16 * (r / 16) + r % 16 = r := by omega
    have eg : 16 * (g / 16) + g % 16 = g := by omega
    have eb : 16 * (b / 16) + b % 16 = b := by omega
    rw [er, eg, eb]
    simp [renderNum, intRepr_natCast]

/-- C9 witness: the fallback branch applied at the malformed color
`"zz"`, and the parsed-components branch applied at the byte triple
(255, 128, 0). -/
theorem c9_hex_to_rgba_witness :
    hexToRgba "zz" "0.5" = "rgba(0,0,0," ++ "0.5" ++ ")" ∧
    hexToRgba (String.mk ('#' :: (toHex2 255 ++ toHex2 128 ++ toHex2 0))) "1" =
      "rgba(" ++ natRepr 255 ++ "," ++ natRepr 128 ++ "," ++ natRepr 0 ++ "," ++
        "1" ++ ")" :=
  ⟨c9_hex_to_rgba.1 "zz" "0.5" (by decide),
   c9_hex_to_rgba.2.1 255 128 0 "1" (by decide) (by decide) (by decide)⟩

/-! ### Batch Runner structure lemmas -/

theorem runSpecs_eq (cf : RunConfig)
    (composeFn : Raster → OutputSpec → Except ErrorKind (List Nat))
    (i : Nat) (src : SourceItem) :
    ∀ (specs : List OutputSpec) (st : RunState),
      runSpecs cf composeFn i src specs st =
        { cells := st.cells ++ specs.map (cellFor cf composeFn i src),
          done := st.done + specs.length, total := st.total,
          trace := st.trace ++ List.range' (st.done + 1) specs.length } := by
  intro specs
  induction specs with
  | nil =>
    intro st
    simp [runSpecs]
  | cons sp rest ih =>
    intro st
    rw [runSpecs, ih]
    simp [stepCell, List.range'_succ]
    omega

theorem runSources_eq (cf : RunConfig)
    (composeFn : Raster → OutputSpec → Except ErrorKind (List Nat))
    (specs : List OutputSpec) :
    ∀ (l : List (Nat × SourceItem)) (st : RunState),
      runSources cf composeFn specs l st =
        { cells := st.cells ++
            l.flatMap fun p => specs.map (cellFor cf composeFn p.1 p.2),
          done := st.done + l.length * specs.length, total := st.total,
          trace := st.trace ++
            List.range' (st.done + 1) (l.length * specs.length) } := by
  intro l
  induction l with
  | nil =>
    intro st
    simp [runSources]
  | cons p rest ih =>
    intro st
    rw [runSources, ih, runSpecs_eq]
    have hr : List.range' (st.done + 1) specs.length ++
        List.range' (st.done + specs.length + 1) (rest.length * specs.length) =
        List.range' (st.done + 1) (specs.length + rest.length * specs.length) := by
      have h2 := List.range'_append_1 (st.done + 1) specs.length
        (rest.length * specs.length)
      rw [show st.done + specs.length + 1 = st.done + 1 + specs.length by omega]
      rw [h2]
      congr 1
      omega
    simp only [RunState.mk.injEq]
    refine ⟨?_, ?_, trivial, ?_⟩
    · simp [List.flatMap_cons, List.append_assoc]
    · simp only [List.length_cons]
      ring
    · rw [List.append_assoc, hr]
      congr 1
      simp [Nat.succ_mul, Nat.add_comm]

theorem run_eq (cf : RunConfig)
    (composeFn : Raster → OutputSpec → Except ErrorKind (List Nat))
    (sources : List SourceItem) (specs : List OutputSpec) :
    run cf composeFn sources specs =
      { cells := sources.enum.flatMap fun p =>
          specs.map (cellFor cf composeFn p.1 p.2),
        done := sources.length * specs.length,
        total := sources.length * specs.length,
        trace := List.range' 1 (sources.length * specs.length) } := by
  unfold run
  rw [runSources_eq]
  simp [List.enum_length]

theorem flatMap_map_length {α β γ : Type} (l : List α) (specs : List β)
    (g : α → β → γ) :
    (l.flatMap fun p => specs.map (g p)).length = l.length * specs.length := by
  induction l with
  | nil => simp
  | cons x xs ih => simp [ih, Nat.succ_mul, Nat.add_comm]

/-- C1: for every run over `m` sources and `k` output specifications
(any composer behavior, so success and failure cells alike), the run
produces exactly `m*k` RenderCells, the progress total is fixed at `m*k`
from the start, and the reported `done` values are exactly `1, 2, ..., m*k`
— one increment per completed cell, strictly increasing from 0, never
exceeding `m*k`, and ending at `m*k`. -/
theorem c1_cell_accounting (cf : RunConfig)
    (composeFn : Raster → OutputSpec → Except ErrorKind (List Nat))
    (sources : List SourceItem) (specs : List OutputSpec) :
    (run cf composeFn sources specs).cells.length =
      sources.length * specs.length ∧
    (run cf composeFn sources specs).total = sources.length * specs.length ∧
    (run cf composeFn sources specs).done = sources.length * specs.length ∧
    (run cf composeFn sources specs).trace =
      List.range' 1 (sources.length * specs.length) ∧
    List.Pairwise (· < ·) (0 :: (run cf composeFn sources specs).trace) ∧
    (∀ d ∈ (run cf composeFn sources specs).trace,
      0 < d ∧ d ≤ sources.length * specs.length) := by
  rw [run_eq]
  refine ⟨?_, rfl, rfl, rfl, ?_, ?_⟩
  · rw [flatMap_map_length, List.enum_length]
  · rw [List.pairwise_cons]
    refine ⟨?_, List.pairwise_lt_range' 1 (sources.length * specs.length)⟩
    intro a ha
    have := List.mem_range'_1.mp ha
    omega
  · intro d hd
    have := List.mem_range'_1.mp hd
    omega

/-- C1 witness: the accounting applied to the concrete two-source,
two-spec run (one source corrupt), at the reported value 4. -/
theorem c1_cell_accounting_witness :
    (run cfB composeOk [validSrc, corruptSrc] [specL, specP]).cells.length =
      2 * 2 ∧
    (0 < 4 ∧ 4 ≤ 2 * 2) :=
  ⟨(c1_cell_accounting cfB composeOk [validSrc, corruptSrc] [specL, specP]).1,
   (c1_cell_accounting cfB composeOk [validSrc, corruptSrc]
      [specL, specP]).2.2.2.2.2 4 (by decide)⟩

/-- C7: whatever the per-cell outcome (decode, surface or encode failure,
modelled by the source's decode result and the composer's `Except`
result), the Batch Runner converts it into a cell for that `(source,
spec)` pair only and never aborts: the run always yields `m*k` cells, and
every cell has exactly one of `encoded`/`error` populated.  The concrete
run drives one source through three specs failing with `SurfaceError`,
`EncodeError` and succeeding, plus one undecodable source, and yields
exactly the six expected cells. -/
theorem c7_error_kinds_cell_local :
    (∀ (cf : RunConfig)
      (composeFn : Raster → OutputSpec → Except ErrorKind (List Nat))
      (sources : List SourceItem) (specs : List OutputSpec),
      (run cf composeFn sources specs).cells.length =
        sources.length * specs.length) ∧
    (∀ (cf : RunConfig)
      (composeFn : Raster → OutputSpec → Except ErrorKind (List Nat))
      (sources : List SourceItem) (specs : List OutputSpec),
      ∀ cell ∈ (run cf composeFn sources specs).cells,
        ((∃ bs, cell.encoded = some bs) ∧ cell.error = none) ∨
        (cell.encoded = none ∧ ∃ e, cell.error = some e)) ∧
    ((run cfB composeMixed
        [{ id := "ok.png", decode := some { w := 4, h := 3 } }, corruptSrc]
        specsABC).cells.map fun c => (c.itemId, c.specKey, c.error, c.encoded)) =
      [("ok.png", "A", some ErrorKind.surfaceError, none),
       ("ok.png", "B", some ErrorKind.encodeError, none),
       ("ok.png", "C", none, some [4]),
       ("corrupt.png", "A", some ErrorKind.decodeError, none),
       ("corrupt.png", "B", some ErrorKind.decodeError, none),
       ("corrupt.png", "C", some ErrorKind.decodeError, none)] := by
  refine ⟨?_, ?_, by decide⟩
  · intro cf composeFn sources specs
    rw [run_eq]
    rw [flatMap_map_length, List.enum_length]
  · intro cf composeFn sources specs cell hcell
    rw [run_eq] at hcell
    simp only [List.mem_flatMap, List.mem_map] at hcell
    obtain ⟨p, _, spec, _, rfl⟩ := hcell
    cases hco : cellOutcome composeFn p.2 spec with
    | ok bs =>
      left
      refine ⟨⟨bs, ?_⟩, ?_⟩ <;> simp [cellFor, hco]
    | error e =>
      right
      refine ⟨?_, e, ?_⟩ <;> simp [cellFor, hco]

/-- C7 witness: the exactly-one invariant applied to the first cell of the
concrete mixed-failure run. -/
theorem c7_error_kinds_cell_local_witness :
    ((∃ bs, (cellFor cfB composeMixed 0
        { id := "ok.png", decode := some { w := 4, h := 3 } }
        { key := "A", width := 100, height := 100, fontSize := 10,
          offsetX := 0, offsetY := 0, label := "A" }).encoded = some bs) ∧
      (cellFor cfB composeMixed 0
        { id := "ok.png", decode := some { w := 4, h := 3 } }
        { key := "A", width := 100, height := 100, fontSize := 10,
          offsetX := 0, offsetY := 0, label := "A" }).error = none) ∨
    ((cellFor cfB composeMixed 0
        { id := "ok.png", decode := some { w := 4, h := 3 } }
        { key := "A", width := 100, height := 100, fontSize := 10,
          offsetX := 0, offsetY := 0, label := "A" }).encoded = none ∧
      ∃ e, (cellFor cfB composeMixed 0
        { id := "ok.png", decode := some { w := 4, h := 3 } }
        { key := "A", width := 100, height := 100, fontSize := 10,
          offsetX := 0, offsetY := 0, label := "A" }).error = some e) :=
  c7_error_kinds_cell_local.2.1 cfB composeMixed
    [{ id := "ok.png", decode := some { w := 4, h := 3 } }, corruptSrc]
    specsABC _ (by decide)

theorem enumFrom_append_cons {α : Type} (pre : List α) (x : α) (post : List α)
    (n : Nat) :
    List.enumFrom n (pre ++ x :: post) =
      List.enumFrom n pre ++ (n + pre.length, x) ::
        List.enumFrom (n + pre.length + 1) post := by
  rw [List.enumFrom_append]
  rfl

/-- C6: when a source's raster fails to decode, the run synthesizes one
error cell per output specification for that source — in place, keeping
the total cell count exact — and the cells of every other source are the
same `cellFor` values they would have in any run (the prefix and suffix
segments do not mention the failed source at all).  Concretely, a run over
`[valid.png, corrupt.png]` with 2 specs yields 2 successful cells for
`valid.png` followed by exactly 2 decode-error cells for `corrupt.png`,
and the `valid.png` cells equal those of the run without the corrupt
source. -/
theorem c6_error_isolation :
    (∀ (cf : RunConfig)
      (composeFn : Raster → OutputSpec → Except ErrorKind (List Nat))
      (pre post : List SourceItem) (src : SourceItem)
      (specs : List OutputSpec), src.decode = none →
      (run cf composeFn (pre ++ src :: post) specs).cells =
        ((List.enumFrom 0 pre).flatMap fun p =>
          specs.map (cellFor cf composeFn p.1 p.2)) ++
        specs.map (cellFor cf composeFn pre.length src) ++
        ((List.enumFrom (pre.length + 1) post).flatMap fun p =>
          specs.map (cellFor cf composeFn p.1 p.2)) ∧
      (specs.map (cellFor cf composeFn pre.length src)).length = specs.length ∧
      (∀ spec ∈ specs,
        (cellFor cf composeFn pre.length src spec).error =
          some ErrorKind.decodeError ∧
        (cellFor cf composeFn pre.length src spec).encoded = none)) ∧
    ((run cfB composeOk [validSrc, corruptSrc] [specL, specP]).cells.map
      fun c => (c.itemId, c.error, c.encoded.isSome)) =
      [("valid.png", none, true), ("valid.png", none, true),
       ("corrupt.png", some ErrorKind.decodeError, false),
       ("corrupt.png", some ErrorKind.decodeError, false)] ∧
    (run cfB composeOk [validSrc, corruptSrc] [specL, specP]).cells.take 2 =
      (run cfB composeOk [validSrc] [specL, specP]).cells := by
  refine ⟨?_, by decide, by decide⟩
  intro cf composeFn pre post src specs hdec
  refine ⟨?_, by rw [List.length_map], ?_⟩
  · rw [run_eq]
    have he : (pre ++ src :: post).enum =
        List.enumFrom 0 (pre ++ src :: post) := rfl
    rw [he, enumFrom_append_cons]
    rw [List.flatMap_append, List.flatMap_cons]
    simp [List.append_assoc]
  · intro spec _
    constructor <;> simp [cellFor, cellOutcome, hdec]

/-- C6 witness: the isolation theorem applied with `pre = [valid.png]`,
`post = []`, the corrupt source and the two reference specs; the
segment-decomposition and per-spec error facts are stated at those
concrete values. -/
theorem c6_error_isolation_witness :
    (run cfB composeOk ([validSrc] ++ corruptSrc :: []) [specL, specP]).cells =
      ((List.enumFrom 0 [validSrc]).flatMap fun p =>
        [specL, specP].map (cellFor cfB composeOk p.1 p.2)) ++
      [specL, specP].map (cellFor cfB composeOk [validSrc].length corruptSrc) ++
      ((List.enumFrom ([validSrc].length + 1) []).flatMap fun p =>
        [specL, specP].map (cellFor cfB composeOk p.1 p.2)) ∧
    (cellFor cfB composeOk [validSrc].length corruptSrc specL).error =
      some ErrorKind.decodeError :=
  ⟨((c6_error_isolation.1 cfB composeOk [validSrc] [] corruptSrc [specL, specP]
      (by decide)).1),
   ((c6_error_isolation.1 cfB composeOk [validSrc] [] corruptSrc [specL, specP]
      (by decide)).2.2 specL (by decide)).1⟩

/-- C2: every successfully composed frame has a surface of exactly the
output specification's size, and its drawn rectangle is the centered
scale-to-fit placement: sizes `sourceW * scale` and `sourceH * scale` with
`scale = min(surfaceW/sourceW, surfaceH/sourceH)`, anchored so that it is
exactly centered (`2x + w = W`, `2y + h = H`), preserves the source aspect
ratio (`drawW * sourceH = drawH * sourceW`), and never exceeds the surface
bounds. -/
theorem c2_letterbox_fit (raster : Raster) (spec : OutputSpec) (lbl : String)
    (surfaceOk encodeOk : Bool) (frame : ComposedFrame)
    (hok : compose raster spec lbl surfaceOk encodeOk = Except.ok frame)
    (hw : 0 < raster.w) (hh : 0 < raster.h)
    (hW : 0 < spec.width) (hH : 0 < spec.height) :
    frame.width = spec.width ∧ frame.height = spec.height ∧
    frame.drawn = fitRect (spec.width : ℚ) (spec.height : ℚ)
      (raster.w : ℚ) (raster.h : ℚ) ∧
    frame.drawn.w = (raster.w : ℚ) * fitScale (spec.width : ℚ)
      (spec.height : ℚ) (raster.w : ℚ) (raster.h : ℚ) ∧
    frame.drawn.h = (raster.h : ℚ) * fitScale (spec.width : ℚ)
      (spec.height : ℚ) (raster.w : ℚ) (raster.h : ℚ) ∧
    fitScale (spec.width : ℚ) (spec.height : ℚ) (raster.w : ℚ) (raster.h : ℚ) =
      min ((spec.width : ℚ) / (raster.w : ℚ))
        ((spec.height : ℚ) / (raster.h : ℚ)) ∧
    frame.drawn.w * (raster.h : ℚ) = frame.drawn.h * (raster.w : ℚ) ∧
    2 * frame.drawn.x + frame.drawn.w = (spec.width : ℚ) ∧
    2 * frame.drawn.y + frame.drawn.h = (spec.height : ℚ) ∧
    0 ≤ frame.drawn.x ∧ 0 ≤ frame.drawn.y ∧
    frame.drawn.x + frame.drawn.w ≤ (spec.width : ℚ) ∧
    frame.drawn.y + frame.drawn.h ≤ (spec.height : ℚ) := by
  simp only [compose] at hok
  by_cases hs : surfaceOk = false
  · rw [if_pos hs] at hok
    exact absurd hok (by simp)
  · rw [if_neg hs] at hok
    by_cases he : encodeOk = false
    · rw [if_pos he] at hok
      exact absurd hok (by simp)
    · rw [if_neg he] at hok
      injection hok with hfr
      subst hfr
      have hwq : (0 : ℚ) < (raster.w : ℚ) := by exact_mod_cast hw
      have hhq : (0 : ℚ) < (raster.h : ℚ) := by exact_mod_cast hh
      have hWq : (0 : ℚ) < (spec.width : ℚ) := by exact_mod_cast hW
      have hHq : (0 : ℚ) < (spec.height : ℚ) := by exact_mod_cast hH
      set w : ℚ := (raster.w : ℚ)
      set h : ℚ := (raster.h : ℚ)
      set bw : ℚ := (spec.width : ℚ)
      set bh : ℚ := (spec.height : ℚ)
      have hsc0 : 0 ≤ fitScale bw bh w h :=
        le_min (div_nonneg (le_of_lt hWq) (le_of_lt hwq))
          (div_nonneg (le_of_lt hHq) (le_of_lt hhq))
      have hww : w * fitScale bw bh w h ≤ bw := by
        have h1 : fitScale bw bh w h ≤ bw / w := min_le_left _ _
        have h2 : w * fitScale bw bh w h ≤ w * (bw / w) :=
          mul_le_mul_of_nonneg_left h1 (le_of_lt hwq)
        rwa [mul_div_cancel₀ bw (ne_of_gt hwq)] at h2
      have hhb : h * fitScale bw bh w h ≤ bh := by
        have h1 : fitScale bw bh w h ≤ bh / h := min_le_right _ _
        have h2 : h * fitScale bw bh w h ≤ h * (bh / h) :=
          mul_le_mul_of_nonneg_left h1 (le_of_lt hhq)
        rwa [mul_div_cancel₀ bh (ne_of_gt hhq)] at h2
      refine ⟨rfl, rfl, rfl, rfl, rfl, rfl, ?_, ?_, ?_, ?_, ?_, ?_, ?_⟩
      · show w * fitScale bw bh w h * h = h * fitScale bw bh w h * w
        ring
      · show 2 * ((bw - w * fitScale bw bh w h) / 2) + w * fitScale bw bh w h = bw
        ring
      · show 2 * ((bh - h * fitScale bw bh w h) / 2) + h * fitScale bw bh w h = bh
        ring
      · show 0 ≤ (bw - w * fitScale bw bh w h) / 2
        have : 0 ≤ bw - w * fitScale bw bh w h := by linarith
        linarith
      · show 0 ≤ (bh - h * fitScale bw bh w h) / 2
        have : 0 ≤ bh - h * fitScale bw bh w h := by linarith
        linarith
      · show (bw - w * fitScale bw bh w h) / 2 + w * fitScale bw bh w h ≤ bw
        linarith
      · show (bh - h * fitScale bw bh w h) / 2 + h * fitScale bw bh w h ≤ bh
        linarith

/-- C2 witness: an 800x600 raster composed into the 1920x1080 landscape
spec scales by 9/5 to a 1440x1080 rectangle at (240, 0). -/
theorem c2_letterbox_fit_witness :
    ({ width := 1920, height := 1080,
       drawn := { x := 240, y := 0, w := 1440, h := 1080 },
       label := "EP 05", encoded := [] } : ComposedFrame).width = specL.width ∧
    2 * (240 : ℚ) + 1440 = (specL.width : ℚ) ∧
    (240 : ℚ) + 1440 ≤ (specL.width : ℚ) := by
  have hfit := c2_letterbox_fit { w := 800, h := 600 } specL "EP 05" true true
    { width := 1920, height := 1080,
      drawn := { x := 240, y := 0, w := 1440, h := 1080 },
      label := "EP 05", encoded := [] }
    (by simp only [compose, specL, fitRect, fitScale]; norm_num)
    (by decide) (by decide) (by decide) (by decide)
  exact ⟨hfit.1, hfit.2.2.2.2.2.2.2.1, hfit.2.2.2.2.2.2.2.2.2.2.2.1⟩

/-- C5 (evaluation at the failing input): with start number 5 and sorted
sources `[a.png (decode fails), b.png (decodes)]`, the stamped label of
`b.png` — the item at post-sort position 1 — carries sequence number
`5 + 1 = 6` (`"EP 06"`), but `downloadZip` numbers its ZIP entry by the
item's index among the *successful* previews only, producing `"05_b.png"`:
the export number is `5 + 0`, not `startNumber + position`, whenever an
earlier item failed.  This contradicts the claimed (and spec-stated)
position-based numbering and the label stamped by the very same run. -/
theorem c5_sequence_bug_eval :
    ((renderAllModel lcZero cfgA stA).previews.map
      fun p => (p.name, p.label, p.hasBlob)) =
      [("a.png", "", false), ("b.png", "EP 06", true)] ∧
    downloadZipNames cfgA (renderAllModel lcZero cfgA stA).previews =
      ["05_b.png"] := by decide

/-- C10: starting a run with an empty source list is a no-op: `renderAll`
returns at the `if (!sortedFiles.length) return;` guard before touching
any state, so previews, progress and the rendering flag — including
results of an earlier run — are left exactly as they were. -/
theorem c10_empty_run_noop (lc : String → String → Int) (cfg : StampConfig)
    (st : AppState) (h : st.files = []) :
    renderAllModel lc cfg st = st ∧
    (renderAllModel lc cfg st).previews = st.previews ∧
    (renderAllModel lc cfg st).progress = st.progress ∧
    (renderAllModel lc cfg st).isRendering = st.isRendering := by
  have hs : sortedFilesModel lc st.files = [] := by rw [h]; rfl
  have heq : renderAllModel lc cfg st = st := by
    simp [renderAllModel, hs]
  exact ⟨heq, by rw [heq], by rw [heq], by rw [heq]⟩

/-- C10 witness: the no-op applied to a state holding no files but a
preview and progress left over from an earlier run. -/
theorem c10_empty_run_noop_witness :
    renderAllModel lcZero cfgA stKeep = stKeep ∧
    (renderAllModel lcZero cfgA stKeep).previews = stKeep.previews :=
  ⟨(c10_empty_run_noop lcZero cfgA stKeep (by decide)).1,
   (c10_empty_run_noop lcZero cfgA stKeep (by decide)).2.1⟩
